import Mathlib

/-!
# Verification of the ETL reconciliation pipeline (`src/data_pipeline.py`)

This file gives a shallow embedding, in Lean 4, of the data model and the
operations of the ETL pipeline in `data_pipeline.py`, and proves (or refutes)
the frozen claims about it.

Modelling conventions:
* pandas missing values (`NaN` in a float column, `None`, `NaT`) are modelled
  with `Option`: `none` is a missing cell.
* Where IEEE special values matter (the affordability-ratio division can
  produce infinities), numeric results are modelled by the inductive `FloatV`
  with explicit `nan` / `posInf` / `negInf` constructors and exact rational
  payloads; pandas float division by zero yields `±inf` (or `nan` for `0/0`),
  never an exception.
* Fallible Python functions that return `None` on failure are embedded as
  functions into `Option`; a Python function that can let an exception escape
  is embedded as a function into `Except`.
* Dates are calendar triples ordered lexicographically; `year` is the first
  component, matching `df["date"].dt.year`.
-/

namespace ETL

/-- A calendar date, as produced by `pd.to_datetime`: year, month, day. -/
structure Date where
  y : Nat
  m : Nat
  d : Nat
deriving DecidableEq, Repr

/-- Lexicographic order on dates, the order pandas uses when sorting a
datetime column. -/
def Date.le (a b : Date) : Bool :=
  if a.y ≠ b.y then a.y ≤ b.y
  else if a.m ≠ b.m then a.m ≤ b.m
  else a.d ≤ b.d

/-- A float cell value.  `nan` doubles as pandas' missing-value marker inside
float columns; `posInf`/`negInf` arise from division by zero. -/
inductive FloatV where
  | nan : FloatV
  | posInf : FloatV
  | negInf : FloatV
  | val : Rat → FloatV
deriving DecidableEq, Repr

/-! ## Source Fetcher (`fetch_data`, `data_pipeline.py` lines 80–89)

`fetch_data` performs `session.get(...)` (which raises `httpx.RequestError`
on timeout/DNS/connection failures) followed by `response.raise_for_status()`
(which raises `httpx.HTTPStatusError` — a sibling of `RequestError`, both
subclasses of `httpx.HTTPError` — on any non-2xx status).  The `except`
clause catches only `httpx.RequestError`. -/

/-- Outcome of the underlying `session.get` call: either the transport raised
`httpx.RequestError` (timeout, DNS, connection failure), or a response with a
status code and byte content arrived. -/
inductive TransportResult where
  | failure : TransportResult
  | response : Nat → List Nat → TransportResult
deriving DecidableEq, Repr

/-- The two `httpx` exception classes that can arise inside `fetch_data`'s
`try` block.  In `httpx`, `HTTPStatusError` is NOT a subclass of
`RequestError`. -/
inductive HttpxException where
  | requestError : HttpxException
  | httpStatusError : Nat → HttpxException
deriving DecidableEq, Repr

/-- Whether an exception is caught by `except httpx.RequestError`. -/
def isRequestError : HttpxException → Bool
  | .requestError => true
  | .httpStatusError _ => false

/-- The body of `fetch_data`'s `try` block: `session.get` then
`response.raise_for_status()` (raises on any status outside 2xx) then
`return response.content`. -/
def fetchBody : TransportResult → Except HttpxException (List Nat)
  | .failure => .error .requestError
  | .response status content =>
      if 200 ≤ status ∧ status < 300 then .ok content
      else .error (.httpStatusError status)

/-- `fetch_data` (lines 80–89): the `try` body wrapped in
`except httpx.RequestError: return None`.  Result `.ok (some c)` = returned
content, `.ok none` = returned `None` after catching, `.error e` = exception
propagated to the caller. -/
def fetch_data (t : TransportResult) : Except HttpxException (Option (List Nat)) :=
  match fetchBody t with
  | .ok c => .ok (some c)
  | .error e => if isRequestError e then .ok none else .error e

/-! ## Row Validator (`validate_data` + `AffordabilityModel`, lines 21–27 and 265–286)

`validate_data` builds, for each dataframe row, the payload
`{key: row.get(key) for key in final_cols}` and feeds it to the pydantic
model `AffordabilityModel`.  The model declares

    date: date
    region_name: str
    average_price: float
    index: float
    average_annual_salary: float | None = None
    affordability_ratio: float | None = None

with **no** extra constraints: pydantic v2 rejects `None` for the four
required fields but accepts any float for the float fields (including `nan`,
`inf` and negative values, since `allow_inf_nan` defaults to `True`) and any
string for `region_name` (including the empty string). -/

/-- A validator input row: the payload dict extracted from one dataframe row.
`none` models a Python `None` cell; a present float cell may itself be `nan`
(pandas' null marker inside a float column), which pydantic accepts. -/
structure VRow where
  date : Option Date
  region_name : Option String
  average_price : Option FloatV
  index : Option FloatV
  average_annual_salary : Option FloatV
  affordability_ratio : Option FloatV
deriving DecidableEq, Repr

/-- A row that passed pydantic validation (`model_dump()` of a constructed
`AffordabilityModel`). -/
structure ValidRow where
  date : Date
  region_name : String
  average_price : FloatV
  index : FloatV
  average_annual_salary : Option FloatV
  affordability_ratio : Option FloatV
deriving DecidableEq, Repr

/-- `AffordabilityModel(**payload)`: succeeds iff every required field is
present (not Python `None`); the two optional fields pass through.  No
positivity, non-emptiness or finiteness constraint is declared on the model. -/
def validateRow (r : VRow) : Option ValidRow :=
  match r.date, r.region_name, r.average_price, r.index with
  | some d, some rn, some ap, some ix =>
      some ⟨d, rn, ap, ix, r.average_annual_salary, r.affordability_ratio⟩
  | _, _, _, _ => none

/-- The `for _, row in df.iterrows()` loop of `validate_data`: appends each
validated row, counts each `ValidationError`. -/
def validateLoop : List VRow → List ValidRow × Nat
  | [] => ([], 0)
  | r :: rest =>
      let acc := validateLoop rest
      match validateRow r with
      | some v => (v :: acc.1, acc.2)
      | none => (acc.1, acc.2 + 1)

/-- `validate_data` (lines 265–286).  A `None` dataframe yields an empty
result.  The second component is the `error_count` the function logs. -/
def validate_data : Option (List VRow) → List ValidRow × Nat
  | none => ([], 0)
  | some rows => validateLoop rows

/-! ## Price Normalizer (`clean_house_price_data`, lines 92–134) -/

/-- A raw date cell before `pd.to_datetime(..., errors="coerce")`: it can be
missing, present but unparseable, or parse to a date. -/
inductive DateCell where
  | missing : DateCell
  | unparseable : DateCell
  | parsed : Date → DateCell
deriving DecidableEq, Repr

/-- `pd.to_datetime(cell, errors="coerce")`: `NaT` (here `none`) for a missing
or unparseable cell. -/
def parseDate : DateCell → Option Date
  | .parsed d => some d
  | _ => none

/-- One raw CSV row of the house-price source, restricted to the columns the
cleaner reads.  `granular` is the row's value in the granular-region column
(`OfficialName`/`TownName`/`DistrictName`) when the table has one. -/
structure RawPriceRow where
  dateCell : DateCell
  regionName : Option String
  averagePrice : Option Rat
  indexVal : Option Rat
  granular : Option String
deriving DecidableEq, Repr

/-- The parsed CSV table.  `hasRequired` is the check
`{"Date","RegionName","AveragePrice","Index"} ⊆ columns`; `hasGranular` is
whether one of the granular-region candidate columns exists. -/
structure RawPriceTable where
  hasRequired : Bool
  hasGranular : Bool
  rows : List RawPriceRow
deriving DecidableEq, Repr

/-- A canonical price observation, the cleaner's output row:
`[date, parent_region, region_name, average_price, index, year]`. -/
structure PriceRow where
  date : Date
  parent_region : String
  region_name : String
  average_price : Rat
  index : Rat
  year : Nat
deriving DecidableEq, Repr

/-- Per-row work of `clean_house_price_data`: parse the date, take
`region_name` from the granular column where present (falling back to
`parent_region` per the `.where(..., parent_region)` on lines 126–128), drop
the row if any of date, parent_region, region_name, average_price, index is
missing (line 130), and derive `year` from the parsed date (line 131). -/
def cleanPriceRow (hasGranular : Bool) (r : RawPriceRow) : Option PriceRow :=
  let region : Option String :=
    if hasGranular then
      match r.granular with
      | some g => some g
      | none => r.regionName
    else r.regionName
  match parseDate r.dateCell, r.regionName, region, r.averagePrice, r.indexVal with
  | some d, some parent, some rn, some ap, some ix =>
      some ⟨d, parent, rn, ap, ix, d.y⟩
  | _, _, _, _, _ => none

/-- `clean_house_price_data` (lines 92–134).  The `none` input covers both a
`None` content argument and a `read_csv` failure; a table missing a required
column is rejected wholesale (lines 103–107); otherwise rows are cleaned
individually. -/
def clean_house_price_data : Option RawPriceTable → Option (List PriceRow)
  | none => none
  | some t =>
      if t.hasRequired then some (t.rows.filterMap (cleanPriceRow t.hasGranular))
      else none

/-! ## Salary Normalizer — sheet selection (`_select_salary_sheet`, lines 137–151) -/

/-- One sheet of the salary workbook: its name and its cell grid as parsed
with `header=None` (a cell is `none` when blank/NaN). -/
structure Sheet where
  name : String
  rows : List (List (Option String))
deriving DecidableEq, Repr

/-- `excel_file.parse(name, header=None, nrows=200).dropna(how="all").shape[0]`:
the number of rows among the first 200 that have at least one non-blank cell. -/
def nonBlank200 (s : Sheet) : Nat :=
  ((s.rows.take 200).filter (fun row => row.any Option.isSome)).length

/-- Python's `str.strip()` over the character list of a string.  (Character
lists are used instead of `String.trim` so that concrete statements reduce in
the kernel.) -/
def trimChars (s : String) : List Char :=
  ((s.data.dropWhile Char.isWhitespace).reverse.dropWhile Char.isWhitespace).reverse

/-- Whether a sheet name matches `name.strip().lower() == "all"`. -/
def isAllSheet (s : Sheet) : Bool :=
  (trimChars s.name).map Char.toLower = ['a', 'l', 'l']

/-- One step of the density loop on lines 146–150: update the running
`(sheet_name, max_rows)` pair when this sheet's non-blank count is strictly
greater. -/
def densityStep (acc : String × Int) (s : Sheet) : String × Int :=
  if (nonBlank200 s : Int) > acc.2 then (s.name, (nonBlank200 s : Int)) else acc

/-- `_select_salary_sheet` (lines 137–151): prefer the first sheet whose
stripped, lowercased name is `"all"`; otherwise run the density loop seeded
with `(sheet_names[0], -1)` over every sheet.  `none` only for an empty
workbook (the caller guarantees non-emptiness on lines 165–167). -/
def selectSalarySheet (sheets : List Sheet) : Option String :=
  match sheets.find? isAllSheet with
  | some s => some s.name
  | none =>
      match sheets with
      | [] => none
      | s₀ :: _ => some (sheets.foldl densityStep (s₀.name, -1)).1

/-! ## Salary Normalizer — pay-column discovery (lines 202–210)

The code scans `data_rows.columns` for the first header whose
`str(col).strip().isdigit()` holds and otherwise falls back to the second
column positionally. -/

/-- `str(col).strip().isdigit()`: non-empty after stripping and all digits. -/
def isDigitHeader (c : String) : Bool :=
  !(trimChars c).isEmpty && (trimChars c).all Char.isDigit

/-- The pay-column choice of `clean_salary_data` (lines 202–210): first
all-digit header, else (when at least two columns exist) the second column,
else failure (the function then logs an error and returns `None`). -/
def payColumn (columns : List String) : Option String :=
  match columns.find? isDigitHeader with
  | some c => some c
  | none =>
      match columns with
      | _ :: second :: _ => some second
      | _ => none

/-- Modelled from the spec: the claim's own pay-column discovery procedure,
stated for comparison with the code's `payColumn`.  "Prefer a column
literally named with the current four-digit year (the pipeline's operating
year, 2025, cf. line 219), else the first column whose header starts with
"20", else positionally the second column." -/
def payColumnSpec (columns : List String) : Option String :=
  match columns.find? (fun c => trimChars c = ['2', '0', '2', '5']) with
  | some c => some c
  | none =>
      match columns.find? (fun c => (trimChars c).take 2 = ['2', '0']) with
      | some c => some c
      | none =>
          match columns with
          | _ :: second :: _ => some second
          | _ => none

/-! ## Reconciler (`merge_and_transform_data`, lines 229–262)

The stages of the function are embedded separately, mirroring the source:
left join (lines 234–241), secondary lookup (lines 243–250), sort
(line 252), group fill (lines 253–255), ratio (line 259). -/

/-- A canonical salary observation (`[year, region_name,
average_annual_salary]`), the salary cleaner's output row.  Salary values are
non-null here: the cleaner drops null pay cells before annualizing. -/
structure SalaryRow where
  year : Nat
  region_name : String
  average_annual_salary : Rat
deriving DecidableEq, Repr

/-- A merged row between the join and the ratio computation.  The
`region_name_salary` column added by the merge is dropped again on line 257
and is not tracked. -/
structure MRow where
  date : Date
  parent_region : String
  region_name : String
  average_price : Rat
  index : Rat
  year : Nat
  average_annual_salary : Option Rat
deriving DecidableEq, Repr

/-- A final reconciled row, with the affordability ratio of line 259. -/
structure ARow where
  date : Date
  parent_region : String
  region_name : String
  average_price : Rat
  index : Rat
  year : Nat
  average_annual_salary : Option Rat
  affordability_ratio : FloatV
deriving DecidableEq, Repr

/-- `pd.merge(prices, salaries, left_on=["year","parent_region"],
right_on=["year","region_name"], how="left")`: left rows in order; each left
row is repeated once per matching right row (in right order), or kept once
with a null salary when nothing matches. -/
def leftJoin (prices : List PriceRow) (salaries : List SalaryRow) : List MRow :=
  prices.flatMap fun p =>
    match salaries.filter (fun s => s.year = p.year && s.region_name = p.parent_region) with
    | [] => [⟨p.date, p.parent_region, p.region_name, p.average_price, p.index, p.year, none⟩]
    | ms => ms.map fun s =>
        ⟨p.date, p.parent_region, p.region_name, p.average_price, p.index, p.year,
          some s.average_annual_salary⟩

/-- `salaries_df.drop_duplicates(subset=["year","region_name"]).set_index(...)
["average_annual_salary"]` followed by `.get(key)`: the first salary row
matching the key, if any (lines 243–246 and 249). -/
def salaryLookup (salaries : List SalaryRow) (y : Nat) (region : String) : Option Rat :=
  (salaries.find? (fun s => s.year = y && s.region_name = region)).map
    (·.average_annual_salary)

/-- Lines 247–250: when any merged row is missing a salary, re-derive the
salary of **every** row from the deduplicated lookup keyed by
`(year, parent_region)`; otherwise leave the frame untouched. -/
def secondaryLookup (salaries : List SalaryRow) (rows : List MRow) : List MRow :=
  if rows.any (fun r => r.average_annual_salary.isNone) then
    rows.map fun r =>
      { r with average_annual_salary := salaryLookup salaries r.year r.parent_region }
  else rows

/-- Lexicographic strict order on character lists, the order pandas uses to
compare strings.  (Defined over `String.data` so concrete sorts reduce in the
kernel.) -/
def charsLt : List Char → List Char → Bool
  | [], [] => false
  | [], _ :: _ => true
  | _ :: _, [] => false
  | a :: as, b :: bs => if a = b then charsLt as bs else a < b

/-- The sort key of `sort_values(by=["region_name","date"])`. -/
def rowLe (a b : MRow) : Bool :=
  if a.region_name = b.region_name then Date.le a.date b.date
  else charsLt a.region_name.data b.region_name.data

/-- The relation form of `rowLe`, for `List.insertionSort`. -/
def RowLeR (a b : MRow) : Prop := rowLe a b = true

instance : DecidableRel RowLeR := fun a b => inferInstanceAs (Decidable (rowLe a b = true))

/-- `merged_df.sort_values(by=["region_name","date"])` (line 252), modelled
as a sort by the same key. -/
def sortRows (rows : List MRow) : List MRow :=
  List.insertionSort RowLeR rows

/-- Forward fill on an option column: each `none` takes the closest earlier
`some`, threading the last seen value. -/
def ffillAux (last : Option Rat) : List (Option Rat) → List (Option Rat)
  | [] => []
  | none :: rest => last :: ffillAux last rest
  | some v :: rest => some v :: ffillAux (some v) rest

/-- `Series.ffill()`. -/
def ffillL (l : List (Option Rat)) : List (Option Rat) := ffillAux none l

/-- `Series.bfill()`: forward fill of the reversal, reversed. -/
def bfillL (l : List (Option Rat)) : List (Option Rat) := (ffillL l.reverse).reverse

/-- The filled salary series of the group a row with parent region `p`
belongs to: the group is the subsequence of rows sharing `p`, in frame
order, and its salary column is forward- then back-filled. -/
def groupSeries (rows : List MRow) (p : String) : List (Option Rat) :=
  bfillL (ffillL ((rows.filter (fun r => r.parent_region = p)).map
    (·.average_annual_salary)))

/-- The worker behind the groupby transform: rebuild the row list, replacing
each row's salary with the value at its position inside its own
parent-region group.  `i` is the absolute index of the current suffix's head
inside `all`. -/
def fillFrom (all : List MRow) (i : Nat) : List MRow → List MRow
  | [] => []
  | r :: rest =>
      let pos := ((all.take i).filter (fun x => x.parent_region = r.parent_region)).length
      let filled := ((groupSeries all r.parent_region).get? pos).getD none
      { r with average_annual_salary := filled } :: fillFrom all (i + 1) rest

/-- `groupby("parent_region")["average_annual_salary"].transform(lambda x:
x.ffill().bfill())` (lines 253–255): each row's salary becomes the filled
group series evaluated at the row's position within its group. -/
def fillGroups (rows : List MRow) : List MRow :=
  fillFrom rows 0 rows

/-- Line 259, under IEEE float semantics: `average_price /
average_annual_salary` is `NaN` when the salary is missing (or `0/0`),
`±inf` when the salary is exactly zero and the price non-zero, and the exact
quotient otherwise. -/
def pdDiv (price : Rat) (salary : Option Rat) : FloatV :=
  match salary with
  | none => .nan
  | some s =>
      if s = 0 then
        if price = 0 then .nan
        else if 0 < price then .posInf
        else .negInf
      else .val (price / s)

/-- Attach the affordability ratio to every row (line 259). -/
def addRatio (rows : List MRow) : List ARow :=
  rows.map fun r =>
    ⟨r.date, r.parent_region, r.region_name, r.average_price, r.index, r.year,
      r.average_annual_salary, pdDiv r.average_price r.average_annual_salary⟩

/-- `merge_and_transform_data` (lines 229–262): `None` when either input
frame is `None`, otherwise join, secondary lookup, sort, group fill, ratio. -/
def merge_and_transform_data (prices : Option (List PriceRow))
    (salaries : Option (List SalaryRow)) : Option (List ARow) :=
  match prices, salaries with
  | some p, some s =>
      some (addRatio (fillGroups (sortRows (secondaryLookup s (leftJoin p s)))))
  | _, _ => none

/-! ## Concrete fixtures used by witnesses and counterexamples -/

/-- A single London price row (January 2025, price 100). -/
def zeroSalPrices : List PriceRow := [⟨⟨2025, 1, 1⟩, "London", "London", 100, 1, 2025⟩]

/-- A salary table carrying an exactly-zero annual salary for London 2025. -/
def zeroSalSalaries : List SalaryRow := [⟨2025, "London", 0⟩]

/-- Two price rows for distinct parent regions `A` (matched) and `B`
(unmatched), used to trigger the secondary salary lookup. -/
def dupPrices : List PriceRow :=
  [⟨⟨2025, 1, 1⟩, "A", "A", 100, 1, 2025⟩, ⟨⟨2025, 1, 1⟩, "B", "B", 100, 1, 2025⟩]

/-- A salary table with two conflicting rows for `(2025, A)`. -/
def dupSalaries : List SalaryRow := [⟨2025, "A", 200⟩, ⟨2025, "A", 100⟩]

/-- Two monthly London price rows in 2025. -/
def londonPrices : List PriceRow :=
  [⟨⟨2025, 1, 1⟩, "London", "London", 500000, 1, 2025⟩,
   ⟨⟨2025, 2, 1⟩, "London", "London", 525000, 1, 2025⟩]

/-- A unique London salary observation for 2025. -/
def londonSalaries : List SalaryRow := [⟨2025, "London", 52000⟩]

/-- A fallback row used only as the `getD`/`headD` default in closed
statements about concrete outputs. -/
def dummyARow : ARow :=
  ⟨⟨0, 0, 0⟩, "", "", 0, 0, 0, none, FloatV.nan⟩

/-- The concrete reconciler output on the London fixtures. -/
def londonOut : List ARow :=
  (merge_and_transform_data (some londonPrices) (some londonSalaries)).getD []

/-- The first row of `londonOut`. -/
def londonRow0 : ARow := londonOut.getD 0 dummyARow

/-- A price table with a matched row (`London`) and an unmatched row
(`Nowhere`), the latter triggering the secondary lookup. -/
def mixedPrices : List PriceRow :=
  [⟨⟨2025, 1, 1⟩, "London", "London", 500000, 1, 2025⟩,
   ⟨⟨2025, 1, 1⟩, "Nowhere", "Nowhere", 1000, 1, 2025⟩]

/-- The first row of the direct join of `mixedPrices` with `londonSalaries`. -/
def mixedJoinRow0 : MRow :=
  ⟨⟨2025, 1, 1⟩, "London", "London", 500000, 1, 2025, some 52000⟩

/-- A validator batch holding a negative-price, empty-region row and a
NaN-price row; both violate the claimed schema but pass the pydantic model. -/
def laxBatch : List VRow :=
  [⟨some ⟨2025, 1, 1⟩, some "", some (.val (-1)), some (.val 1), none, none⟩,
   ⟨some ⟨2025, 1, 1⟩, some "X", some .nan, some (.val 1), none, none⟩]

/-- A validator batch with one fully valid row and one row whose
`average_price` cell is Python `None`. -/
def nonePriceBatch : List VRow :=
  [⟨some ⟨2025, 1, 1⟩, some "London", some (.val 500000), some (.val 1), none, none⟩,
   ⟨some ⟨2025, 1, 1⟩, some "London", none, some (.val 1), none, none⟩]

/-- A raw price table (required columns present, no granular column) with one
well-formed row, one unparseable-date row and one missing-date row. -/
def samplePriceTable : RawPriceTable :=
  ⟨true, false,
    [⟨.parsed ⟨2025, 1, 1⟩, some "London", some 500000, some 1, none⟩,
     ⟨.unparseable, some "Wales", some 150000, some 1, none⟩,
     ⟨.missing, some "Scotland", some 180000, some 1, none⟩]⟩

/-- A workbook containing a sheet whose name strips and lowercases to
`"all"`. -/
def allWorkbook : List Sheet :=
  [⟨"Cover", [[some "title"]]⟩, ⟨" ALL ", [[some "Region", some "2025"]]⟩]

/-- The cleaner's concrete output on `samplePriceTable`. -/
def samplePriceOut : List PriceRow :=
  (clean_house_price_data (some samplePriceTable)).getD []

/-- A workbook whose only data-dense sheet is not named `All`. -/
def sampleWorkbook : List Sheet :=
  [⟨"Notes", [[some "cover"], [none, none]]⟩,
   ⟨"DataSheet", [[some "Region", some "2025"], [some "London", some "1000"],
     [some "North West", some "800"]]⟩]

/-! ## Theorems -/

/-- C2: `fetch_data` does NOT absorb every transport-level failure.  A non-2xx
HTTP status makes `raise_for_status` raise `httpx.HTTPStatusError`, which the
`except httpx.RequestError` clause does not catch, so the exception
propagates to the caller; only timeout/DNS/connection failures
(`httpx.RequestError`) are turned into `None`.  Evaluated here at the failing
input (an HTTP 404 response) alongside the two behaviours the code does
implement. -/
theorem fetch_data_status_error_escapes :
    fetch_data (.response 404 []) = .error (.httpStatusError 404) ∧
    fetch_data .failure = .ok none ∧
    fetch_data (.response 200 [1, 2]) = .ok (some [1, 2]) :=
  ⟨rfl, rfl, rfl⟩

/-- C9: the reconciler is deterministic — two invocations on equal
`(prices, salaries)` pairs produce equal output row lists. -/
theorem merge_and_transform_deterministic
    (p₁ p₂ : Option (List PriceRow)) (s₁ s₂ : Option (List SalaryRow))
    (hp : p₁ = p₂) (hs : s₁ = s₂) :
    merge_and_transform_data p₁ s₁ = merge_and_transform_data p₂ s₂ := by
  rw [hp, hs]

/-- Witness for C9 at the concrete London fixtures. -/
theorem merge_and_transform_deterministic_witness :
    merge_and_transform_data (some londonPrices) (some londonSalaries)
      = merge_and_transform_data (some londonPrices) (some londonSalaries) :=
  merge_and_transform_deterministic (some londonPrices) (some londonPrices)
    (some londonSalaries) (some londonSalaries) rfl rfl

/-- The loop of `validate_data` partitions its input: every row is either
appended to the validated list or counted as an error. -/
theorem validateLoop_partition (rows : List VRow) :
    (validateLoop rows).1.length + (validateLoop rows).2 = rows.length := by
  induction rows with
  | nil => rfl
  | cons r rest ih =>
      simp only [validateLoop]
      cases h : validateRow r <;> simp [h] <;> omega

/-- C10: the validator is total at its interface — a `None` input yields the
empty row set, and on any batch the number of returned rows plus the number
of rejected rows equals the number of input rows. -/
theorem validate_data_total_partition :
    validate_data none = ([], 0) ∧
    ∀ rows : List VRow,
      (validate_data (some rows)).1.length + (validate_data (some rows)).2
        = rows.length :=
  ⟨rfl, fun rows => validateLoop_partition rows⟩

/-- Counterexample to C4: with headers `["Region", "1999", "2025"]` the code
picks `"1999"` (the first all-digit header), while the claimed discovery
procedure (prefer the current four-digit year, else the first header starting
with "20") picks `"2025"`. -/
theorem payColumn_counterexample :
    payColumn ["Region", "1999", "2025"] = some "1999" ∧
    payColumnSpec ["Region", "1999", "2025"] = some "2025" := by
  constructor <;> rfl

/-- C4 (amended): the pay column is the first column whose stripped header
consists solely of digits; only when no such header exists does the code fall
back to the second column positionally (failing when fewer than two columns
exist).  There is no preference for the current year and no
starts-with-"20" test. -/
theorem payColumn_first_digit_else_second (cols : List String) :
    (∀ c, cols.find? isDigitHeader = some c → payColumn cols = some c) ∧
    ((∀ c ∈ cols, isDigitHeader c = false) → payColumn cols = cols.get? 1) := by
  constructor
  · intro c hc
    unfold payColumn
    rw [hc]
  · intro hall
    have hnone : cols.find? isDigitHeader = none := by
      rw [List.find?_eq_none]
      intro x hx
      simp [hall x hx]
    unfold payColumn
    rw [hnone]
    match cols with
    | [] => rfl
    | [_] => rfl
    | _ :: _ :: _ => rfl

/-- Witness for the amended C4: headers with no year-like token fall back to
the second column. -/
theorem payColumn_first_digit_else_second_witness :
    payColumn ["Region", "Notes"] = ["Region", "Notes"].get? 1 :=
  (payColumn_first_digit_else_second ["Region", "Notes"]).2 (by decide)

/-- Counterexample to C1: a merged row whose `average_annual_salary` is
exactly `0` receives an affordability ratio of `+inf` (pandas float division
by zero), not an absent value. -/
theorem reconcile_zero_salary_counterexample :
    ((merge_and_transform_data (some zeroSalPrices) (some zeroSalSalaries)).getD
        []).map (fun r => r.affordability_ratio) = [FloatV.posInf] ∧
    ((merge_and_transform_data (some zeroSalPrices) (some zeroSalSalaries)).getD
        []).map (fun r => r.average_annual_salary) = [some 0] := by
  constructor <;> rfl

/-- Counterexample to C6: with duplicate salary rows for `(2025, A)` and one
unmatched price row, the secondary lookup rewrites EVERY row from the
deduplicated (keep-first) index — the join row that had obtained salary `100`
leaves step 2 carrying `200`. -/
theorem secondaryLookup_overwrite_counterexample :
    (leftJoin dupPrices dupSalaries).map (fun r => r.average_annual_salary)
      = [some 200, some 100, none] ∧
    (secondaryLookup dupSalaries (leftJoin dupPrices dupSalaries)).map
        (fun r => r.average_annual_salary)
      = [some 200, some 200, none] := by
  constructor <;> rfl

/-- Counterexample to C3: a batch with a negative-price, empty-region-name
row and a NaN-price row (NaN is pandas' null marker inside a float column) is
accepted wholesale: the validator returns both rows and reports zero invalid
rows, where the claim demanded zero rows and an invalid count of 2. -/
theorem validate_data_lax_counterexample :
    (validate_data (some laxBatch)).1.length = 2 ∧
    (validate_data (some laxBatch)).2 = 0 := by
  constructor <;> rfl

/-- Inversion for the per-row cleaner: a produced row's date stems from a
successfully parsed date cell, and its year is derived from that date. -/
theorem cleanPriceRow_parsed {g : Bool} {raw : RawPriceRow} {r : PriceRow}
    (h : cleanPriceRow g raw = some r) :
    raw.dateCell = DateCell.parsed r.date ∧ r.year = r.date.y := by
  rcases raw with ⟨dc, rn, ap, ix, gr⟩
  cases dc <;> cases rn <;> cases ap <;> cases ix <;> cases gr <;> cases g <;>
    simp_all [cleanPriceRow, parseDate] <;> (try subst h) <;> simp

/-- C5: on any accepted CSV input, the price normalizer emits at most as many
rows as it received, and every output row originates in an input row whose
date cell parsed successfully (rows with missing or unparseable dates are
excluded, never defaulted), with `year` derived from the parsed date. -/
theorem clean_house_price_data_row_bound (t : RawPriceTable) (out : List PriceRow)
    (h : clean_house_price_data (some t) = some out) :
    out.length ≤ t.rows.length ∧
    ∀ r ∈ out, ∃ raw ∈ t.rows,
      raw.dateCell = DateCell.parsed r.date ∧ r.year = r.date.y := by
  rcases t with ⟨req, g, rows⟩
  cases req
  · simp [clean_house_price_data] at h
  · simp only [clean_house_price_data, if_true] at h
    injection h with h
    subst h
    constructor
    · exact List.length_filterMap_le _ _
    · intro r hr
      obtain ⟨raw, hraw, hclean⟩ := List.mem_filterMap.mp hr
      exact ⟨raw, hraw, cleanPriceRow_parsed hclean⟩

/-- Witness for C5 at a concrete three-row table (one good row, one
unparseable date, one missing date). -/
theorem clean_house_price_data_row_bound_witness :
    samplePriceOut.length ≤ samplePriceTable.rows.length :=
  (clean_house_price_data_row_bound samplePriceTable samplePriceOut rfl).1

/-- Pydantic acceptance, characterised: a payload row validates exactly when
its four required fields are not Python `None`.  Present values are never
inspected further — NaN, infinite and negative floats and empty strings all
pass. -/
theorem validateRow_isSome_iff (r : VRow) :
    (validateRow r).isSome ↔
      r.date.isSome ∧ r.region_name.isSome ∧ r.average_price.isSome ∧
        r.index.isSome := by
  rcases r with ⟨d, rn, ap, ix, s, ratio⟩
  cases d <;> cases rn <;> cases ap <;> cases ix <;> simp [validateRow]

/-- The validated-row list built by the loop is exactly the in-order
`filterMap` of the per-row validator over the batch. -/
theorem validateLoop_fst (rows : List VRow) :
    (validateLoop rows).1 = rows.filterMap validateRow := by
  induction rows with
  | nil => rfl
  | cons r rest ih =>
      simp only [validateLoop, List.filterMap_cons]
      cases h : validateRow r <;> simp [h, ih]

/-- C3 (amended): on a batch whose rows all carry a present date, region
name and index, the validator returns exactly the rows whose
`average_price` is not Python `None`, in input order (the output is the
in-order `filterMap` of the row validator, and a row validates precisely
when its price is present), reporting the others as the invalid count — but
it applies no further check: NaN prices (pandas' null marker in a float
column), negative prices and empty region names are accepted as valid. -/
theorem validate_data_counts_none_prices (rows : List VRow)
    (hvalid : ∀ r ∈ rows,
      r.date.isSome ∧ r.region_name.isSome ∧ r.index.isSome) :
    (validate_data (some rows)).1 = rows.filterMap validateRow
    ∧ (∀ r ∈ rows, (validateRow r).isSome ↔ r.average_price.isSome)
    ∧ (validate_data (some rows)).1.length
        = rows.length - (rows.filter (fun r => r.average_price.isNone)).length
    ∧ (validate_data (some rows)).2
        = (rows.filter (fun r => r.average_price.isNone)).length := by
  refine ⟨validateLoop_fst rows, ?_, ?_⟩
  · intro r hr
    obtain ⟨hd, hrn, hix⟩ := hvalid r hr
    rw [validateRow_isSome_iff]
    constructor
    · intro h
      exact h.2.2.1
    · intro h
      exact ⟨hd, hrn, h, hix⟩
  show (validateLoop rows).1.length = _ ∧ (validateLoop rows).2 = _
  induction rows with
  | nil => exact ⟨rfl, rfl⟩
  | cons r rest ih =>
      obtain ⟨hd, hrn, hix⟩ := hvalid r (List.mem_cons_self r rest)
      have ihv := ih (fun x hx => hvalid x (List.mem_cons_of_mem r hx))
      have hK : (rest.filter (fun r => r.average_price.isNone)).length
          ≤ rest.length := List.length_filter_le _ _
      simp only [validateLoop]
      cases hap : r.average_price with
      | none =>
          have hnone : validateRow r = none := by
            have := validateRow_isSome_iff r
            rw [hap] at this
            simp at this
            exact Option.not_isSome_iff_eq_none.mp (by simp [this])
          rw [hnone]
          rw [List.filter_cons_of_pos (by rw [hap]; rfl)]
          constructor
          · simpa using ihv.1
          · simp [ihv.2]
      | some v =>
          have hsome : (validateRow r).isSome := by
            rw [validateRow_isSome_iff]
            exact ⟨hd, hrn, by simp [hap], hix⟩
          obtain ⟨w, hw⟩ := Option.isSome_iff_exists.mp hsome
          rw [hw]
          rw [List.filter_cons_of_neg (by simp [hap])]
          constructor
          · simp only [List.length_cons, ihv.1]
            omega
          · exact ihv.2

/-- Witness for the amended C3: a two-row batch with one `None` price yields
one validated row and an invalid count of one. -/
theorem validate_data_counts_none_prices_witness :
    (validate_data (some nonePriceBatch)).1.length = 2 - 1 ∧
    (validate_data (some nonePriceBatch)).2 = 1 := by
  have h := validate_data_counts_none_prices nonePriceBatch (by decide)
  exact ⟨by rw [h.2.2.1]; rfl, by rw [h.2.2.2]; rfl⟩

/-- C1 (amended): for every reconciled row, the affordability ratio is the
pandas float quotient `average_price / average_annual_salary`: absent (NaN)
when the salary is absent, the exact quotient when the salary is present and
non-zero, but `+inf` — not an absent value — when the salary is exactly zero
and the price positive (and NaN only in the `0 / 0` corner). -/
theorem reconcile_ratio_characterization (p : List PriceRow) (s : List SalaryRow)
    (out : List ARow)
    (h : merge_and_transform_data (some p) (some s) = some out) :
    ∀ r ∈ out,
      r.affordability_ratio = pdDiv r.average_price r.average_annual_salary ∧
      (r.average_annual_salary = none → r.affordability_ratio = FloatV.nan) ∧
      (∀ v, r.average_annual_salary = some v → v ≠ 0 →
        r.affordability_ratio = FloatV.val (r.average_price / v)) ∧
      (r.average_annual_salary = some 0 → 0 < r.average_price →
        r.affordability_ratio = FloatV.posInf) := by
  simp only [merge_and_transform_data] at h
  injection h with h
  subst h
  intro r hr
  simp only [addRatio, List.mem_map] at hr
  obtain ⟨x, hx, rfl⟩ := hr
  refine ⟨rfl, ?_, ?_, ?_⟩
  · intro hnone
    simp only at hnone
    simp [pdDiv, hnone]
  · intro v hv hne
    simp only at hv
    simp [pdDiv, hv, hne]
  · intro h0 hpos
    simp only at h0
    simp only at hpos
    simp [pdDiv, h0, hpos.ne', hpos]

/-- The head of a non-empty list, read off with a default, is a member. -/
theorem getD_zero_mem {α : Type} : ∀ (l : List α) (d : α), l ≠ [] → l.getD 0 d ∈ l
  | [], _, h => absurd rfl h
  | a :: t, _, _ => List.mem_cons_self a t

/-- Witness for the amended C1 at the London fixture: price 500000 over
salary 52000. -/
theorem reconcile_ratio_characterization_witness :
    londonRow0.affordability_ratio
      = FloatV.val (londonRow0.average_price / 52000) :=
  (reconcile_ratio_characterization londonPrices londonSalaries londonOut rfl
    londonRow0
    (getD_zero_mem londonOut dummyARow (by
      intro h
      have hlen : londonOut.length = 2 := rfl
      rw [h] at hlen
      cases hlen))).2.2.1
    52000 (by decide) (by decide)

/-- Structure of the left join: every merged row carries its price row's
key fields, and its salary is either absent or taken from some salary row
matching `(year, parent_region)`. -/
theorem mem_leftJoin {p : List PriceRow} {s : List SalaryRow} {r : MRow}
    (h : r ∈ leftJoin p s) :
    ∃ pr ∈ p, r.year = pr.year ∧ r.parent_region = pr.parent_region ∧
      ((r.average_annual_salary = none ∧
          ∀ sr ∈ s, ¬(sr.year = r.year ∧ sr.region_name = r.parent_region)) ∨
        ∃ sr ∈ s, sr.year = r.year ∧ sr.region_name = r.parent_region ∧
          r.average_annual_salary = some sr.average_annual_salary) := by
  simp only [leftJoin, List.mem_flatMap] at h
  obtain ⟨pr, hpr, hmem⟩ := h
  refine ⟨pr, hpr, ?_⟩
  cases hfil : s.filter (fun t => t.year = pr.year && t.region_name = pr.parent_region) with
  | nil =>
      rw [hfil] at hmem
      simp only [List.mem_singleton] at hmem
      subst hmem
      refine ⟨rfl, rfl, Or.inl ⟨rfl, ?_⟩⟩
      intro sr hsr hcon
      have := List.filter_eq_nil.mp hfil sr hsr
      simp only [Bool.and_eq_true, decide_eq_true_eq, not_and] at this
      exact this hcon.1 hcon.2
  | cons m tail =>
      rw [hfil] at hmem
      simp only [List.mem_map] at hmem
      obtain ⟨sr, hsr, hre⟩ := hmem
      subst hre
      have hsr' : sr ∈ s.filter
          (fun t => t.year = pr.year && t.region_name = pr.parent_region) := by
        rw [hfil]; exact hsr
      have hf := List.mem_filter.mp hsr'
      have hpred := hf.2
      simp only [Bool.and_eq_true, decide_eq_true_eq] at hpred
      refine ⟨rfl, rfl, Or.inr ⟨sr, hf.1, ?_, ?_, rfl⟩⟩
      · exact hpred.1
      · exact hpred.2

/-- C6 (amended): provided the salary table has at most one row per
`(year, region_name)` key, the secondary lookup leaves every row that
obtained a salary from the direct join unchanged — in position and in
value.  (The counterexample shows the proviso is necessary: with duplicate
keys, step 2 rewrites joined values to the deduplicated-first value.) -/
theorem secondaryLookup_preserves_joined (prices : List PriceRow)
    (salaries : List SalaryRow)
    (huniq : ∀ s₁ ∈ salaries, ∀ s₂ ∈ salaries,
      s₁.year = s₂.year → s₁.region_name = s₂.region_name → s₁ = s₂)
    (i : Nat) (r : MRow)
    (hget : (leftJoin prices salaries).get? i = some r)
    (hsome : r.average_annual_salary.isSome) :
    (secondaryLookup salaries (leftJoin prices salaries)).get? i = some r := by
  unfold secondaryLookup
  split
  · rw [List.get?_map, hget]
    obtain ⟨v, hv⟩ := Option.isSome_iff_exists.mp hsome
    obtain ⟨pr, _, hy, hp, hsal⟩ := mem_leftJoin (List.get?_mem hget)
    rcases hsal with hnone | ⟨sr, hsrs, hy2, hp2, hval⟩
    · rw [hnone.1] at hv; cases hv
    · have hlook : salaryLookup salaries r.year r.parent_region
          = some sr.average_annual_salary := by
        unfold salaryLookup
        have hpred : (fun t : SalaryRow =>
            t.year = r.year && t.region_name = r.parent_region) sr = true := by
          simp [hy2, hp2]
        have hs : (salaries.find? (fun t =>
            t.year = r.year && t.region_name = r.parent_region)).isSome :=
          List.find?_isSome.mpr ⟨sr, hsrs, hpred⟩
        obtain ⟨sr₂, hsr₂⟩ := Option.isSome_iff_exists.mp hs
        have hpred₂ := List.find?_some hsr₂
        simp only [Bool.and_eq_true, decide_eq_true_eq] at hpred₂
        have heq : sr₂ = sr :=
          huniq sr₂ (List.mem_of_find?_eq_some hsr₂) sr hsrs
            (hpred₂.1.trans hy2.symm) (hpred₂.2.trans hp2.symm)
        rw [hsr₂, heq]
        rfl
      simp only [Option.map_some']
      rw [hlook, ← hval]
  · exact hget

/-- Witness for the amended C6: with a duplicate-free salary table, the
matched London join row passes through the (triggered) secondary lookup
unchanged. -/
theorem secondaryLookup_preserves_joined_witness :
    (secondaryLookup londonSalaries (leftJoin mixedPrices londonSalaries)).get? 0
      = some mixedJoinRow0 :=
  secondaryLookup_preserves_joined mixedPrices londonSalaries (by decide) 0
    mixedJoinRow0 rfl rfl

/-- The density loop never changes its accumulator once it dominates every
remaining sheet. -/
theorem densityFold_no_update (l : List Sheet) (n : String) (v : Int)
    (h : ∀ s ∈ l, (nonBlank200 s : Int) ≤ v) :
    l.foldl densityStep (n, v) = (n, v) := by
  induction l generalizing n v with
  | nil => rfl
  | cons s rest ih =>
      simp only [List.foldl_cons, densityStep]
      rw [if_neg (not_lt.mpr (h s (List.mem_cons_self s rest)))]
      exact ih n v (fun t ht => h t (List.mem_cons_of_mem s ht))

/-- The density loop computes the first maximum: whenever some sheet beats
the seed, the loop ends on the earliest sheet of maximal non-blank count. -/
theorem densityFold_argmax (l : List Sheet) (n : String) (v : Int)
    (hex : ∃ s ∈ l, v < (nonBlank200 s : Int)) :
    ∃ l₁ cs l₂, l = l₁ ++ cs :: l₂ ∧
      l.foldl densityStep (n, v) = (cs.name, (nonBlank200 cs : Int)) ∧
      (∀ t ∈ l, (nonBlank200 t : Int) ≤ (nonBlank200 cs : Int)) ∧
      (∀ t ∈ l₁, (nonBlank200 t : Int) < (nonBlank200 cs : Int)) ∧
      v < (nonBlank200 cs : Int) := by
  induction l generalizing n v with
  | nil => simp at hex
  | cons s rest ih =>
      by_cases hcase : v < (nonBlank200 s : Int)
      · simp only [List.foldl_cons, densityStep, if_pos hcase]
        by_cases hex2 : ∃ t ∈ rest, (nonBlank200 s : Int) < (nonBlank200 t : Int)
        · obtain ⟨l₁, cs, l₂, hdec, hfold, hall, hpre, hlt⟩ :=
            ih s.name (nonBlank200 s : Int) hex2
          refine ⟨s :: l₁, cs, l₂, by rw [hdec]; rfl, hfold, ?_, ?_, hcase.trans hlt⟩
          · intro t ht
            rcases List.mem_cons.mp ht with rfl | ht'
            · exact le_of_lt hlt
            · exact hall t ht'
          · intro t ht
            rcases List.mem_cons.mp ht with rfl | ht'
            · exact hlt
            · exact hpre t ht'
        · push_neg at hex2
          rw [densityFold_no_update rest s.name _ hex2]
          refine ⟨[], s, rest, rfl, rfl, ?_, ?_, hcase⟩
          · intro t ht
            rcases List.mem_cons.mp ht with rfl | ht'
            · exact le_refl _
            · exact hex2 t ht'
          · intro t ht
            cases ht
      · simp only [List.foldl_cons, densityStep, if_neg hcase]
        have hex3 : ∃ t ∈ rest, v < (nonBlank200 t : Int) := by
          obtain ⟨t, ht, hvt⟩ := hex
          rcases List.mem_cons.mp ht with rfl | ht'
          · exact absurd hvt hcase
          · exact ⟨t, ht', hvt⟩
        obtain ⟨l₁, cs, l₂, hdec, hfold, hall, hpre, hlt⟩ := ih n v hex3
        have hsle : (nonBlank200 s : Int) ≤ (nonBlank200 cs : Int) :=
          le_of_lt (lt_of_le_of_lt (not_lt.mp hcase) hlt)
        refine ⟨s :: l₁, cs, l₂, by rw [hdec]; rfl, hfold, ?_, ?_, hlt⟩
        · intro t ht
          rcases List.mem_cons.mp ht with rfl | ht'
          · exact hsle
          · exact hall t ht'
        · intro t ht
          rcases List.mem_cons.mp ht with rfl | ht'
          · exact lt_of_le_of_lt (not_lt.mp hcase) hlt
          · exact hpre t ht'

/-- C7: `_select_salary_sheet` picks the first sheet whose stripped,
lowercased name is `"all"` when one exists; otherwise it picks the sheet
with the most non-blank rows among the first 200 rows of each sheet,
resolving ties in favour of the earliest sheet. -/
theorem selectSalarySheet_spec (sheets : List Sheet) :
    (∀ s, sheets.find? isAllSheet = some s →
      selectSalarySheet sheets = some s.name) ∧
    (sheets.find? isAllSheet = none → sheets ≠ [] →
      ∃ l₁ cs l₂, sheets = l₁ ++ cs :: l₂ ∧
        selectSalarySheet sheets = some cs.name ∧
        (∀ t ∈ sheets, nonBlank200 t ≤ nonBlank200 cs) ∧
        (∀ t ∈ l₁, nonBlank200 t < nonBlank200 cs)) := by
  constructor
  · intro s hs
    unfold selectSalarySheet
    rw [hs]
  · intro hnone hne
    match sheets, hne, hnone with
    | s₀ :: rest, _, hnone =>
        have hex : ∃ s ∈ s₀ :: rest, (-1 : Int) < (nonBlank200 s : Int) :=
          ⟨s₀, List.mem_cons_self s₀ rest, by omega⟩
        obtain ⟨l₁, cs, l₂, hdec, hfold, hall, hpre, _⟩ :=
          densityFold_argmax (s₀ :: rest) s₀.name (-1) hex
        refine ⟨l₁, cs, l₂, hdec, ?_, ?_, ?_⟩
        · unfold selectSalarySheet
          rw [hnone]
          show some (List.foldl densityStep (s₀.name, -1) (s₀ :: rest)).1
            = some cs.name
          rw [hfold]
        · intro t ht
          exact_mod_cast hall t ht
        · intro t ht
          exact_mod_cast hpre t ht

/-- Witness for C7: a sheet named `" ALL "` is selected by name. -/
theorem selectSalarySheet_spec_witness :
    selectSalarySheet allWorkbook = some " ALL " :=
  (selectSalarySheet_spec allWorkbook).1 ⟨" ALL ", [[some "Region", some "2025"]]⟩ rfl

/-- Forward filling never changes a present value. -/
theorem ffillAux_get? (acc : Option Rat) (l : List (Option Rat)) (i : Nat) (v : Rat)
    (h : l.get? i = some (some v)) : (ffillAux acc l).get? i = some (some v) := by
  induction l generalizing acc i with
  | nil => cases i <;> cases h
  | cons x rest ih =>
      cases x with
      | none =>
          cases i with
          | zero => simp at h
          | succ j =>
              show (ffillAux acc rest).get? j = some (some v)
              exact ih acc j (by simpa using h)
      | some w =>
          cases i with
          | zero => simpa [ffillAux] using h
          | succ j =>
              show (ffillAux (some w) rest).get? j = some (some v)
              exact ih (some w) j (by simpa using h)

/-- Forward filling preserves length. -/
theorem ffillAux_length (acc : Option Rat) (l : List (Option Rat)) :
    (ffillAux acc l).length = l.length := by
  induction l generalizing acc with
  | nil => rfl
  | cons x rest ih =>
      cases x with
      | none => simpa [ffillAux] using ih acc
      | some w => simpa [ffillAux] using ih (some w)

/-- Back filling never changes a present value. -/
theorem bfillL_get? (l : List (Option Rat)) (i : Nat) (v : Rat)
    (h : l.get? i = some (some v)) : (bfillL l).get? i = some (some v) := by
  have hi : i < l.length := (List.get?_eq_some.mp h).1
  unfold bfillL
  have hlen : (ffillL l.reverse).length = l.length := by
    unfold ffillL
    rw [ffillAux_length, List.length_reverse]
  have hi' : i < (ffillL l.reverse).length := by rw [hlen]; exact hi
  rw [List.get?_reverse hi', hlen]
  apply ffillAux_get?
  have hj : l.length - 1 - i < l.length := by omega
  rw [List.get?_reverse hj]
  have : l.length - 1 - (l.length - 1 - i) = i := by omega
  rw [this]
  exact h

/-- The element at index `i` sits inside `filter p` exactly at the index
counting the earlier elements that satisfy `p`. -/
theorem filter_get?_at_count {α : Type} (p : α → Bool) :
    ∀ (l : List α) (i : Nat) (a : α), l.get? i = some a → p a = true →
      (l.filter p).get? ((l.take i).filter p).length = some a
  | [], i, _, h, _ => by cases i <;> cases h
  | x :: t, 0, a, h, hp => by
      injection h with h
      subst h
      simp [List.filter_cons_of_pos hp]
  | x :: t, i + 1, a, h, hp => by
      have ih := filter_get?_at_count p t i a (by simpa using h) hp
      by_cases hx : p x = true
      · rw [List.filter_cons_of_pos hx]
        rw [List.take_succ_cons, List.filter_cons_of_pos hx]
        simpa using ih
      · rw [List.filter_cons_of_neg (by simpa using hx)]
        rw [List.take_succ_cons, List.filter_cons_of_neg (by simpa using hx)]
        exact ih

/-- Pointwise description of `fillFrom`: the row at offset `k` of the suffix
keeps all its fields except that its salary is read off the filled series of
its parent-region group at the group position of absolute index `i + k`. -/
theorem fillFrom_get? (all : List MRow) :
    ∀ (l : List MRow) (i k : Nat) (r : MRow), l.get? k = some r →
      (fillFrom all i l).get? k = some { r with average_annual_salary :=
        ((groupSeries all r.parent_region).get?
          (((all.take (i + k)).filter
            (fun x => x.parent_region = r.parent_region)).length)).getD none }
  | [], i, k, _, h => by cases k <;> cases h
  | x :: rest, i, 0, r, h => by
      injection h with h
      subst h
      rfl
  | x :: rest, i, k + 1, r, h => by
      have ih := fillFrom_get? all rest (i + 1) k r (by simpa using h)
      show (fillFrom all (i + 1) rest).get? k = _
      rw [ih]
      have : i + 1 + k = i + (k + 1) := by omega
      rw [this]

/-- The group-fill stage never changes a present salary and keeps every
other field intact. -/
theorem fillGroups_preserves_salary (rows : List MRow) (k : Nat) (r : MRow)
    (hget : rows.get? k = some r) (v : Rat)
    (hv : r.average_annual_salary = some v) :
    (fillGroups rows).get? k = some r := by
  unfold fillGroups
  rw [fillFrom_get? rows rows 0 k r hget]
  have hfil : ((rows.filter (fun x => x.parent_region = r.parent_region)).map
      (·.average_annual_salary)).get?
        (((rows.take k).filter (fun x => x.parent_region = r.parent_region)).length)
      = some (some v) := by
    rw [List.get?_map]
    rw [filter_get?_at_count (fun x => x.parent_region = r.parent_region) rows k r
      hget (by simp)]
    simp [hv]
  have hser : (groupSeries rows r.parent_region).get?
      (((rows.take k).filter (fun x => x.parent_region = r.parent_region)).length)
      = some (some v) := by
    unfold groupSeries
    exact bfillL_get? _ _ v (ffillAux_get? none _ _ v hfil)
  simp only [Nat.zero_add, hser, Option.getD_some]
  rw [← hv]

/-- The group-fill stage preserves length. -/
theorem fillFrom_length (all : List MRow) :
    ∀ (l : List MRow) (i : Nat), (fillFrom all i l).length = l.length
  | [], _ => rfl
  | _ :: rest, i => by
      show (fillFrom all (i + 1) rest).length + 1 = rest.length + 1
      rw [fillFrom_length all rest (i + 1)]

/-- C8: whenever the salary table knows a single salary value `sv` for parent
region `P` in year `Y` (at least one row for the key, all rows for the key
agreeing on `sv`), every reconciled output row of parent region `P` in year
`Y` carries `average_annual_salary = sv`. -/
theorem reconcile_propagates_known_salary (prices : List PriceRow)
    (salaries : List SalaryRow) (P : String) (Y : Nat) (sv : Rat)
    (out : List ARow)
    (h : merge_and_transform_data (some prices) (some salaries) = some out)
    (hex : ∃ sr ∈ salaries, sr.year = Y ∧ sr.region_name = P)
    (hag : ∀ sr ∈ salaries, sr.year = Y → sr.region_name = P →
      sr.average_annual_salary = sv) :
    ∀ r ∈ out, r.parent_region = P → r.year = Y →
      r.average_annual_salary = some sv := by
  simp only [merge_and_transform_data] at h
  injection h with h
  subst h
  have hjoin : ∀ r ∈ leftJoin prices salaries, r.parent_region = P → r.year = Y →
      r.average_annual_salary = some sv := by
    intro r hr hP hY
    obtain ⟨pr, hpr, hy, hp, hsal⟩ := mem_leftJoin hr
    rcases hsal with ⟨hnone, hnomatch⟩ | ⟨sr, hsrs, hy2, hp2, hval⟩
    · obtain ⟨sr, hsr, hsy, hsp⟩ := hex
      exact absurd ⟨hsy.trans hY.symm, hsp.trans hP.symm⟩ (hnomatch sr hsr)
    · rw [hval, hag sr hsrs (hy2.trans hY) (hp2.trans hP)]
  have hm2 : ∀ r ∈ secondaryLookup salaries (leftJoin prices salaries),
      r.parent_region = P → r.year = Y → r.average_annual_salary = some sv := by
    intro r hr hP hY
    unfold secondaryLookup at hr
    split at hr
    · simp only [List.mem_map] at hr
      obtain ⟨x, hx, rfl⟩ := hr
      simp only at hP hY ⊢
      obtain ⟨sr, hsr, hsy, hsp⟩ := hex
      have hpred : (fun t : SalaryRow =>
          t.year = x.year && t.region_name = x.parent_region) sr = true := by
        simp [hsy, hsp, hP, hY]
      have hs : (salaries.find? (fun t =>
          t.year = x.year && t.region_name = x.parent_region)).isSome :=
        List.find?_isSome.mpr ⟨sr, hsr, hpred⟩
      obtain ⟨sr₂, hsr₂⟩ := Option.isSome_iff_exists.mp hs
      have hpred₂ := List.find?_some hsr₂
      simp only [Bool.and_eq_true, decide_eq_true_eq] at hpred₂
      unfold salaryLookup
      rw [hsr₂]
      simp only [Option.map_some']
      rw [hag sr₂ (List.mem_of_find?_eq_some hsr₂)
        (hpred₂.1.trans hY) (hpred₂.2.trans hP)]
    · exact hjoin r hr hP hY
  have hm3 : ∀ r ∈ sortRows (secondaryLookup salaries (leftJoin prices salaries)),
      r.parent_region = P → r.year = Y → r.average_annual_salary = some sv := by
    intro r hr
    exact hm2 r ((List.perm_insertionSort RowLeR _).mem_iff.mp hr)
  have hm4 : ∀ r ∈ fillGroups (sortRows (secondaryLookup salaries
      (leftJoin prices salaries))),
      r.parent_region = P → r.year = Y → r.average_annual_salary = some sv := by
    intro r hr hP hY
    set m3 := sortRows (secondaryLookup salaries (leftJoin prices salaries)) with hm3def
    obtain ⟨k, hk⟩ := List.mem_iff_get?.mp hr
    have hklt : k < m3.length := by
      have := (List.get?_eq_some.mp hk).1
      rw [fillGroups, fillFrom_length] at this
      exact this
    have hx : m3.get? k = some (m3.get ⟨k, hklt⟩) := List.get?_eq_get hklt
    set x := m3.get ⟨k, hklt⟩ with hxdef
    have hfill := fillFrom_get? m3 m3 0 k x hx
    rw [← fillGroups] at hfill
    rw [hfill] at hk
    injection hk with hk
    have hxP : x.parent_region = P := by rw [← hk] at hP; exact hP
    have hxY : x.year = Y := by rw [← hk] at hY; exact hY
    have hxs : x.average_annual_salary = some sv :=
      hm3 x (List.get?_mem hx) hxP hxY
    have hpres := fillGroups_preserves_salary m3 k x hx sv hxs
    rw [hfill] at hpres
    injection hpres with hpres
    rw [← hk, hpres, hxs]
  intro r hr hP hY
  simp only [addRatio, List.mem_map] at hr
  obtain ⟨x, hx, rfl⟩ := hr
  simp only at hP hY ⊢
  exact hm4 x hx hP hY

/-- Witness for C8: both monthly London rows of the fixture carry the known
2025 London salary; checked here on the first output row. -/
theorem reconcile_propagates_known_salary_witness :
    londonRow0.average_annual_salary = some 52000 :=
  reconcile_propagates_known_salary londonPrices londonSalaries "London" 2025
    52000 londonOut rfl ⟨⟨2025, "London", 52000⟩, by decide, rfl, rfl⟩ (by decide)
    londonRow0
    (getD_zero_mem londonOut dummyARow (by
      intro hemp
      have hlen : londonOut.length = 2 := rfl
      rw [hemp] at hlen
      cases hlen))
    rfl rfl

end ETL
